import Mathlib

/-!
# Verification of the Quran-db fetch-and-load pipelines

Shallow embedding of the data-loading scripts of this repository
(`scribts/download.py`, `scribts/download_v2.py`, `scribts/import_juzs.py`,
`scribts/import_lines.py`, `migrations_drop_audio_segments.py`) together with
proofs of the behavioural properties stated in the specification.

Conventions:
* SQLite tables are modelled as Lean lists of row structures; an `Option` list
  distinguishes an absent table (`none`) from a present one (`some rows`).
* Python dicts keyed by `(sura_id, ayat_number)` are modelled as functions
  `Key → Option _` (`dict.get` semantics).
* Machine integers of the scripts are small (ids, counters); they are modelled
  as `Nat`, which matches Python's arbitrary-precision ints.
-/

namespace QuranDb

/-- A work-item key `(sura_id, ayat_number)`, as used by both loaders. -/
abbrev Key := Nat × Nat

/-! ## `scribts/download.py` (v1): payloads and destination rows -/

/-- One word sub-record of a v1 payload, as built by `fetch_ayah`:
`{'position': w['position'], 'text_uthmani': w['text_uthmani']}`. -/
structure WordRec where
  position : Nat
  text_uthmani : String
deriving DecidableEq

/-- The normalized verse payload built by `fetch_ayah` in `download.py`. -/
structure Payload where
  text_uthmani : String
  juz_number : Nat
  hizb_number : Nat
  page_number : Nat
  words : List WordRec
deriving DecidableEq

/-- A row of the v1 `Ayats` table. -/
structure AyatRow where
  ayat_id : Nat
  sura_id : Nat
  ayat_number : Nat
  text_arabic : String
  juz_id : Nat
  hezb_id : Nat
  page_id : Nat
deriving DecidableEq

/-- A row of the v1 `Words` table. -/
structure WordRow where
  word_id : Nat
  ayat_id : Nat
  word_number : Nat
  text_arabic : String
deriving DecidableEq

/-- The inner word-insert loop of `download.py`
(`for w in payload['words']: INSERT INTO Words ...; word_id += 1`):
consecutive `word_id`s starting at `wordId`, `word_number` copied from the
payload's `position` field. -/
def verseWordRows (wordId ayatId : Nat) : List WordRec → List WordRow
  | [] => []
  | w :: ws =>
    ⟨wordId, ayatId, w.position, w.text_uthmani⟩ :: verseWordRows (wordId + 1) ayatId ws

/-- The sequential insert loop of `download.py` (lines 218-251): walk the keys
in order; for a key present in `results` insert one `Ayats` row (fields from
the key and the payload) and its word rows, then advance both counters; for an
absent key (`results.get(...)` falsy) skip without advancing either counter. -/
def insertLoop (results : Key → Option Payload) :
    List Key → Nat → Nat → List AyatRow × List WordRow
  | [], _, _ => ([], [])
  | k :: ks, ayatId, wordId =>
    match results k with
    | none => insertLoop results ks ayatId wordId
    | some p =>
      let rest := insertLoop results ks (ayatId + 1) (wordId + p.words.length)
      (⟨ayatId, k.1, k.2, p.text_uthmani, p.juz_number, p.hizb_number, p.page_number⟩ :: rest.1,
       verseWordRows wordId ayatId p.words ++ rest.2)

/-- The v1 Sequential Loader: both id counters start at 1. -/
def loadAyats (keys : List Key) (results : Key → Option Payload) :
    List AyatRow × List WordRow :=
  insertLoop results keys 1 1

/-! ## `scribts/download_v2.py`: payloads and destination rows -/

/-- One word sub-record of a v2 payload, as normalized by `fetch_verse`. -/
structure WordRecV2 where
  position : Nat
  text_uthmani : Option String
  type : String
  page_number : Option Nat
  line_number : Option Nat
  audio_url : Option String
deriving DecidableEq

/-- The normalized verse payload built by `fetch_verse` in `download_v2.py`.
Note that `sura_id` is taken from the response's `chapter_id` field, not from
the requested key. -/
structure PayloadV2 where
  sura_id : Nat
  ayat_number : Nat
  text_uthmani : String
  juz_id : Nat
  hezb_id : Nat
  page_id : Nat
  sajdah_number : Option Nat
  audio_url : Option String
  words : List WordRecV2
deriving DecidableEq

/-- A row of the v2 `Ayats` table. -/
structure AyatRowV2 where
  ayat_id : Nat
  sura_id : Nat
  ayat_number : Nat
  text_uthmani : String
  juz_id : Nat
  hezb_id : Nat
  page_id : Nat
  sajdah_number : Option Nat
  audio_url : Option String
deriving DecidableEq

/-- A row of the v2 `Words` table. -/
structure WordRowV2 where
  word_id : Nat
  ayat_id : Nat
  word_number : Nat
  text_uthmani : String
  type : String
  page_number : Option Nat
  line_number : Option Nat
  audio_url : Option String
deriving DecidableEq

/-- The inner word-insert loop of `download_v2.py` `main` (lines 279-294):
`word_number` copied from the payload word's `position`, `text_uthmani` and
`type` defaulted to `''` via Python's `or ''`. -/
def verseWordRowsV2 (wordId ayatId : Nat) : List WordRecV2 → List WordRowV2
  | [] => []
  | w :: ws =>
    ⟨wordId, ayatId, w.position, w.text_uthmani.getD "", w.type,
      w.page_number, w.line_number, w.audio_url⟩ :: verseWordRowsV2 (wordId + 1) ayatId ws

/-- The sequential insert loop of `download_v2.py` `main` (lines 254-295).
Identical control flow to the v1 loop, but the `Ayats` row fields `sura_id`,
`ayat_number`, ... are taken from the payload, not from the requested key. -/
def insertLoopV2 (results : Key → Option PayloadV2) :
    List Key → Nat → Nat → List AyatRowV2 × List WordRowV2
  | [], _, _ => ([], [])
  | k :: ks, ayatId, wordId =>
    match results k with
    | none => insertLoopV2 results ks ayatId wordId
    | some p =>
      let rest := insertLoopV2 results ks (ayatId + 1) (wordId + p.words.length)
      (⟨ayatId, p.sura_id, p.ayat_number, p.text_uthmani, p.juz_id, p.hezb_id, p.page_id,
          p.sajdah_number, p.audio_url⟩ :: rest.1,
       verseWordRowsV2 wordId ayatId p.words ++ rest.2)

/-- The v2 Sequential Loader: both id counters start at 1. -/
def loadAyatsV2 (keys : List Key) (results : Key → Option PayloadV2) :
    List AyatRowV2 × List WordRowV2 :=
  insertLoopV2 results keys 1 1

/-! ## Key Enumerator -/

/-- One record of the chapter-list API response (`suras` in both scripts). -/
structure Sura where
  id : Nat
  name_arabic : String
  revelation_order : Nat
  verses_count : Nat
deriving DecidableEq

/-- The key list built by `download_v2.py` `main` (lines 208-213):
`for sura in suras: for anum in range(1, sura['verses_count'] + 1)`. -/
def all_ayah (suras : List Sura) : List Key :=
  suras.flatMap fun s => (List.range s.verses_count).map fun v => (s.id, v + 1)

/-- The key list built by `download.py` (lines 167-172):
`for sura_id in range(1, 115): sura_data = next(s for s in suras if s['id'] == sura_id);
for ayat_number in range(1, sura_data['verses_count'] + 1)`.
The `none` branch is unreachable in the script (`next` would raise); it is
only exercised when some id in 1..114 has no chapter record. -/
def all_ayah_keys (suras : List Sura) : List Key :=
  (List.range 114).flatMap fun i =>
    match suras.find? (fun s => s.id == i + 1) with
    | some s => (List.range s.verses_count).map fun v => (s.id, v + 1)
    | none => []

/-- Strict canonical order on keys: chapter-ascending, then verse-ascending. -/
def keyLt (a b : Key) : Prop :=
  a.1 < b.1 ∨ (a.1 = b.1 ∧ a.2 < b.2)

instance : DecidablePred fun p : Key × Key => keyLt p.1 p.2 :=
  fun _ => by unfold keyLt; infer_instance

instance (a b : Key) : Decidable (keyLt a b) := by unfold keyLt; infer_instance

/-! ## Result Aggregator and Recovery Pass (both scripts, identical logic) -/

/-- One step of the as-completed aggregation loop of `download.py`
(lines 193-203): a successful future stores its payload in the results dict;
a failed one appends its key to the errors list. `fetch1 k` is the outcome of
the first-pass fetch task for key `k` (each task runs exactly once). -/
def aggregateStep (fetch1 : Key → Option Payload)
    (acc : (Key → Option Payload) × List Key) (k : Key) :
    (Key → Option Payload) × List Key :=
  match fetch1 k with
  | some p => (fun k2 => if k2 = k then some p else acc.1 k2, acc.2)
  | none => (acc.1, acc.2 ++ [k])

/-- The Result Aggregator: consumes the completed futures in completion order
`order` (an arbitrary permutation of the submitted keys), starting from an
empty dict and an empty error list. -/
def aggregate (fetch1 : Key → Option Payload) (order : List Key) :
    (Key → Option Payload) × List Key :=
  order.foldl (aggregateStep fetch1) (fun _ => none, [])

/-- The serial Recovery Pass of `download.py` (lines 205-214): for each failed
key, in order, call the fetch function once more (`fetch2 k` is that call's
outcome); on success merge the payload into the results dict, on failure
leave the dict unchanged and report the key.  Returns the updated results,
the trace of fetch invocations, and the reported permanently-failed keys. -/
def recoveryPass (fetch2 : Key → Option Payload) :
    List Key → (Key → Option Payload) → (Key → Option Payload) × List Key × List Key
  | [], results => (results, [], [])
  | k :: ks, results =>
    match fetch2 k with
    | some p =>
      let rest := recoveryPass fetch2 ks (fun k2 => if k2 = k then some p else results k2)
      (rest.1, k :: rest.2.1, rest.2.2)
    | none =>
      let rest := recoveryPass fetch2 ks results
      (rest.1, k :: rest.2.1, k :: rest.2.2)

/-! ## Per-request retry policy (`_make_session` / `make_session`) -/

/-- The arguments of the `urllib3.util.retry.Retry` constructor that
`_make_session` (`download.py` lines 115-134) and `make_session`
(`download_v2.py` lines 23-38) pass. -/
structure RetryConfig where
  total : Nat
  read : Nat
  connect : Nat
  backoff_factor : ℚ
  status_forcelist : List Nat
  allowed_methods : List String
  raise_on_status : Bool
deriving DecidableEq

/-- The retry policy mounted on every session by `_make_session` and
`make_session` (both scripts pass the identical literal arguments). -/
def sessionRetry : RetryConfig :=
  { total := 5
    read := 5
    connect := 5
    backoff_factor := 1 / 2
    status_forcelist := [429, 500, 502, 503, 504]
    allowed_methods := ["GET"]
    raise_on_status := false }

/-- Outcome of one HTTP attempt: a response status, or a connection-level
error before any response. -/
inductive Attempt where
  | status (code : Nat)
  | connError
deriving DecidableEq

/-- Modelled from the spec: the retry decision of the third-party
`urllib3` `Retry` machinery (not part of this repository).  Per the spec's
per-request policy, an attempt is retried automatically exactly when it is a
connection-level error or a response whose status is in the configured
transient set (for an allowed method). -/
def isRetryable (cfg : RetryConfig) (method : String) (a : Attempt) : Bool :=
  match a with
  | .connError => true
  | .status c => cfg.allowed_methods.contains method && cfg.status_forcelist.contains c

/-- Modelled from the spec: `urllib3`'s exponential backoff schedule — the
sleep before retry `n` is `backoff_factor * 2 ^ n`. -/
def backoffTime (cfg : RetryConfig) (n : Nat) : ℚ :=
  cfg.backoff_factor * 2 ^ n

/-- Modelled from the spec: the bounded automatic retry loop executed inside a
single `session.get`.  `responses i` is the outcome of the `i`-th attempt
(0-based); `fuel` is the remaining retry budget.  Returns the index of the
attempt whose outcome is surfaced to the caller together with that outcome
(a surfaced error status is then raised by `resp.raise_for_status()`, a
surfaced connection error by the transport). -/
def retryRun (cfg : RetryConfig) (method : String) (responses : Nat → Attempt) :
    Nat → Nat → Nat × Attempt
  | i, 0 => (i, responses i)
  | i, fuel + 1 =>
    if isRetryable cfg method (responses i) then
      retryRun cfg method responses (i + 1) fuel
    else
      (i, responses i)

/-! ## Schema Initializer (C3): store model and both initializers -/

/-- A row of the static `Juzs` table (v1 schema as created by the
initializers; the enrichment columns added later by `import_juzs.py` are
modelled separately in `ImportJuzs`). -/
structure JuzRow where
  juz_id : Nat
  juz_number : Nat
deriving DecidableEq

/-- A row of the static `Hezbs` table. -/
structure HezbRow where
  hezb_id : Nat
  hezb_number : Nat
  juz_id : Nat
deriving DecidableEq

/-- A row of the static `Pages` table. -/
structure PageRow where
  page_id : Nat
  page_number : Nat
deriving DecidableEq

/-- A row of the `Suras` table. -/
structure SuraRow where
  sura_id : Nat
  name_arabic : String
  revelation_order : Nat
  ayat_count : Nat
deriving DecidableEq

/-- The destination store as the initializers see it: one field per table,
`none` when the table does not exist.  Only row data is modelled (column
shape is not): `CREATE TABLE IF NOT EXISTS` never alters an existing table,
and the v2 `recreate_ayats_words` always leaves `Ayats`/`Words` empty, so the
row type of those two tables (taken here to be the v2 row shape) never
affects any statement below. -/
structure Store where
  suras : Option (List SuraRow)
  ayats : Option (List AyatRowV2)
  words : Option (List WordRowV2)
  juzs : Option (List JuzRow)
  hezbs : Option (List HezbRow)
  pages : Option (List PageRow)
deriving DecidableEq

/-- `CREATE TABLE IF NOT EXISTS`: an absent table becomes empty, a present
one is untouched. -/
def createIfAbsent (t : Option (List α)) : Option (List α) :=
  match t with
  | some rows => some rows
  | none => some []

/-- `INSERT OR IGNORE`: the row is appended unless it conflicts (per
`conflict r existing = true`) with an existing row. -/
def insertIfNew (conflict : α → α → Bool) (rows : List α) (r : α) : List α :=
  if rows.any (conflict r) then rows else rows ++ [r]

/-- A loop of `INSERT OR IGNORE` statements over `new`, in order. -/
def insertAll (conflict : α → α → Bool) (rows : List α) (new : List α) : List α :=
  new.foldl (insertIfNew conflict) rows

/-- Conflict for `Juzs`: primary key `juz_id` or `UNIQUE juz_number`. -/
def juzConflict (r x : JuzRow) : Bool :=
  x.juz_id == r.juz_id || x.juz_number == r.juz_number

/-- Conflict for `Hezbs`: primary key `hezb_id` or `UNIQUE hezb_number`. -/
def hezbConflict (r x : HezbRow) : Bool :=
  x.hezb_id == r.hezb_id || x.hezb_number == r.hezb_number

/-- Conflict for `Pages`: primary key `page_id` or `UNIQUE page_number`. -/
def pageConflict (r x : PageRow) : Bool :=
  x.page_id == r.page_id || x.page_number == r.page_number

/-- Conflict for `Suras`: primary key `sura_id`. -/
def suraConflict (r x : SuraRow) : Bool :=
  x.sura_id == r.sura_id

/-- `for juz_num in range(1, 31): INSERT OR IGNORE INTO Juzs VALUES (juz_num, juz_num)`. -/
def staticJuzs (rows : List JuzRow) : List JuzRow :=
  insertAll juzConflict rows ((List.range 30).map fun n => ⟨n + 1, n + 1⟩)

/-- `for hezb_num in range(1, 61): juz_id = ((hezb_num - 1) // 2) + 1; INSERT OR IGNORE ...`. -/
def staticHezbs (rows : List HezbRow) : List HezbRow :=
  insertAll hezbConflict rows ((List.range 60).map fun n => ⟨n + 1, n + 1, n / 2 + 1⟩)

/-- `for page_num in range(1, 605): INSERT OR IGNORE INTO Pages VALUES (page_num, page_num)`. -/
def staticPages (rows : List PageRow) : List PageRow :=
  insertAll pageConflict rows ((List.range 604).map fun n => ⟨n + 1, n + 1⟩)

/-- `for sura in suras: INSERT OR IGNORE INTO Suras VALUES (...)`. -/
def insertSuras (rows : List SuraRow) (api : List Sura) : List SuraRow :=
  insertAll suraConflict rows
    (api.map fun s => ⟨s.id, s.name_arabic, s.revelation_order, s.verses_count⟩)

/-- The v1 Schema Initializer (`download.py` lines 21-106): create all six
tables if absent, populate the static `Juzs`/`Hezbs`/`Pages` rows and the
`Suras` rows with `INSERT OR IGNORE`.  `api` is the fetched chapter list. -/
def initV1 (api : List Sura) (st : Store) : Store :=
  { suras := some (insertSuras ((createIfAbsent st.suras).getD []) api)
    ayats := createIfAbsent st.ayats
    words := createIfAbsent st.words
    juzs := some (staticJuzs ((createIfAbsent st.juzs).getD []))
    hezbs := some (staticHezbs ((createIfAbsent st.hezbs).getD []))
    pages := some (staticPages ((createIfAbsent st.pages).getD [])) }

/-- The v2 Schema Initializer (`download_v2.py`: `ensure_base_tables`, the
static inserts in `main`, `recreate_ayats_words`, and the `Suras` insert):
identical to v1 on `Suras`/`Juzs`/`Hezbs`/`Pages`, but `recreate_ayats_words`
— `DROP TABLE IF EXISTS Words; DROP TABLE IF EXISTS Ayats; CREATE TABLE ...` —
unconditionally replaces `Ayats` and `Words` by fresh empty tables. -/
def initV2 (api : List Sura) (st : Store) : Store :=
  { suras := some (insertSuras ((createIfAbsent st.suras).getD []) api)
    ayats := some []
    words := some []
    juzs := some (staticJuzs ((createIfAbsent st.juzs).getD []))
    hezbs := some (staticHezbs ((createIfAbsent st.hezbs).getD []))
    pages := some (staticPages ((createIfAbsent st.pages).getD [])) }

/-! ## `scribts/import_juzs.py` -/

namespace ImportJuzs

/-- A `Juzs` row including the columns `ensure_schema` adds
(`ALTER TABLE Juzs ADD COLUMN ... ` when absent; modelled as always-present
nullable columns, since adding a column changes no data). -/
structure JuzRow where
  juz_id : Nat
  juz_number : Nat
  verses_count : Option Nat
  first_ayat_id : Option Nat
  last_ayat_id : Option Nat
deriving DecidableEq

/-- The projection of an `Ayats` row used by `map_to_ayat_id`. -/
structure AyatRef where
  ayat_id : Nat
  sura_id : Nat
  ayat_number : Nat
deriving DecidableEq

/-- The target store as `import_juzs` sees it. -/
structure Db where
  juzs : List JuzRow
  ayats : List AyatRef
deriving DecidableEq

/-- One row of the read-only source database's `juz` table. -/
structure SourceRow where
  juz_number : Nat
  verses_count : Nat
  first_verse_key : String
  last_verse_key : String
deriving DecidableEq

/-- `parse_verse_key`: split on `':'`, require exactly two integer parts;
a malformed key (`ValueError` in the script) is `none`. -/
def parse_verse_key (key : String) : Option (Nat × Nat) :=
  match key.splitOn ":" with
  | [a, b] =>
    match a.toNat?, b.toNat? with
    | some x, some y => some (x, y)
    | _, _ => none
  | _ => none

/-- `map_to_ayat_id`: `SELECT ayat_id FROM Ayats WHERE sura_id=? AND
ayat_number=? LIMIT 1`; a missing row (`LookupError`) is `none`. -/
def map_to_ayat_id (db : Db) (sura_id ayat_number : Nat) : Option Nat :=
  (db.ayats.find? fun a => a.sura_id == sura_id && a.ayat_number == ayat_number).map
    (fun a => a.ayat_id)

/-- The `UPDATE Juzs SET ... WHERE juz_id = ?` statement. -/
def updateJuz (juzs : List JuzRow) (jn vc fid lid : Nat) : List JuzRow :=
  juzs.map fun j =>
    if j.juz_id == jn then
      { j with verses_count := some vc, first_ayat_id := some fid, last_ayat_id := some lid }
    else j

/-- `import_juzs` (lines 59-97): if either database file is missing, report
and return without opening or mutating the target; otherwise walk the source
rows, skipping any row whose keys fail to parse or to map to an ayat id. -/
def import_juzs (srcExists tgtExists : Bool) (src : List SourceRow) (db : Db) : Db :=
  if !srcExists then db
  else if !tgtExists then db
  else
    { db with
      juzs := src.foldl (fun acc r =>
        match parse_verse_key r.first_verse_key, parse_verse_key r.last_verse_key with
        | some fk, some lk =>
          match map_to_ayat_id db fk.1 fk.2, map_to_ayat_id db lk.1 lk.2 with
          | some fid, some lid => updateJuz acc r.juz_number r.verses_count fid lid
          | _, _ => acc
        | _, _ => acc) db.juzs }

end ImportJuzs

/-! ## `scribts/import_lines.py` -/

namespace ImportLines

/-- A row of the `Lines` table. -/
structure LineRow where
  page_id : Nat
  line_number : Nat
  line_type : Option String
  is_centered : Nat
  first_word_id : Option Nat
  last_word_id : Option Nat
  sura_id : Nat
deriving DecidableEq

/-- The projection of a `Pages` row used to build the page map. -/
structure PageRef where
  page_id : Nat
  page_number : Nat
deriving DecidableEq

/-- The target store as `import_lines` sees it (`Suras` only via its ids). -/
structure Db where
  pages : List PageRef
  suraIds : List Nat
  lines : List LineRow
deriving DecidableEq

/-- One row of the read-only source database's `pages` table. -/
structure SourceRow where
  page_number : Nat
  line_number : Nat
  line_type : Option String
  is_centered : Option Int
  first_word_id : Option Nat
  last_word_id : Option Nat
  surah_number : Nat
deriving DecidableEq

/-- The unique index `uq_lines_page_line` on `(page_id, line_number)`
honoured by `INSERT OR IGNORE`. -/
def lineConflict (r x : LineRow) : Bool :=
  x.page_id == r.page_id && x.line_number == r.line_number

/-- `import_lines` (lines 57-114): if either database file is missing, report
and return without opening or mutating the target; otherwise rebuild `Lines`
from scratch, keeping only source rows whose page number maps to an existing
page and whose chapter number is a valid sura id, normalizing `is_centered`
via `1 if int(is_centered or 0) != 0 else 0`. -/
def import_lines (srcExists tgtExists : Bool) (src : List SourceRow) (db : Db) : Db :=
  if !srcExists then db
  else if !tgtExists then db
  else
    let page_map := fun pn => (db.pages.find? fun p => p.page_number == pn).map
      (fun p => p.page_id)
    let to_insert := src.filterMap fun r =>
      match page_map r.page_number with
      | none => none
      | some pid =>
        if db.suraIds.contains r.surah_number then
          some (⟨pid, r.line_number, r.line_type,
            if (r.is_centered.getD 0 : Int) != 0 then 1 else 0,
            r.first_word_id, r.last_word_id, r.surah_number⟩ : LineRow)
        else none
    { db with lines := QuranDb.insertAll lineConflict [] to_insert }

end ImportLines

/-! ## `migrations_drop_audio_segments.py` -/

namespace Migrations

/-- A table row, modelled as its column valuation (the value a `SELECT` of
that column would return for this row; `none` is SQL `NULL`). -/
abbrev Row := String → Option String

/-- The `Ayats` table: its column list and its rows in order. -/
structure Table where
  cols : List String
  rows : List Row

/-- `column_exists` (probe via `PRAGMA table_info`). -/
def column_exists (t : Table) (c : String) : Bool :=
  t.cols.contains c

/-- The nine columns of `DDL_NEW_AYATS` (the v2 `Ayats` schema). -/
def RETAINED : List String :=
  ["ayat_id", "sura_id", "ayat_number", "text_uthmani", "juz_id", "hezb_id",
   "page_id", "sajdah_number", "audio_url"]

/-- `ALTER TABLE Ayats DROP COLUMN c`: the column disappears from the schema;
the surviving columns of every row are untouched. -/
def alterDropColumn (t : Table) (c : String) : Table :=
  ⟨t.cols.erase c, t.rows⟩

/-- The fallback rebuild: `CREATE TABLE Ayats_new (...); INSERT INTO Ayats_new
(ayat_id, ..., audio_url) SELECT ayat_id, ..., audio_url FROM Ayats;
DROP TABLE Ayats; ALTER TABLE Ayats_new RENAME TO Ayats`. -/
def rebuildAyats (t : Table) : Table :=
  ⟨RETAINED, t.rows.map fun r c => if RETAINED.contains c then r c else none⟩

/-- `drop_audio_segments` (lines 30-70).  `dbExists` models the
`os.path.exists(DB_PATH)` probe; `alterSupported` models whether
`ALTER TABLE ... DROP COLUMN` raises `sqlite3.DatabaseError` (it does on
SQLite < 3.35, triggering the rebuild fallback). -/
def drop_audio_segments (dbExists alterSupported : Bool) (t : Table) : Table :=
  if !dbExists then t
  else if !(column_exists t "audio_segments") then t
  else if alterSupported then alterDropColumn t "audio_segments"
  else rebuildAyats t

/-- The observable content of column `c`: its value in every row, in order,
or `none` when the table has no such column (a `SELECT` would error). -/
def colValues (t : Table) (c : String) : Option (List (Option String)) :=
  if t.cols.contains c then some (t.rows.map fun r => r c) else none

end Migrations

/-! ## `combine_url` (`download_v2.py` lines 11-20) -/

/-- `BASE_AUDIO` in `download_v2.py`. -/
def BASE_AUDIO : String := "https://verses.quran.foundation/"

/-- Python `str.rstrip('/')`: drop all trailing slashes. -/
def rstripSlash (s : String) : String :=
  ⟨(s.data.reverse.dropWhile (· == '/')).reverse⟩

/-- Python `str.lstrip('/')`: drop all leading slashes. -/
def lstripSlash (s : String) : String :=
  ⟨s.data.dropWhile (· == '/')⟩

/-- `combine_url`: `None` for a falsy argument (`None` or `''`), otherwise
`BASE_AUDIO.rstrip('/') + '/' + path.lstrip('/')`. -/
def combine_url : Option String → Option String
  | none => none
  | some path =>
    if path = "" then none
    else some (rstripSlash BASE_AUDIO ++ "/" ++ lstripSlash path)

/-! ## Concrete inputs used by the witnesses and the counterexample -/

def wPayload : Payload :=
  { text_uthmani := "b", juz_number := 1, hizb_number := 1, page_number := 1,
    words := [⟨1, "w1"⟩, ⟨2, "w2"⟩] }

def wPayloadV2 : PayloadV2 :=
  { sura_id := 1, ayat_number := 1, text_uthmani := "b", juz_id := 1, hezb_id := 1,
    page_id := 1, sajdah_number := none, audio_url := none,
    words := [{ position := 1, text_uthmani := some "w1", type := "word",
                page_number := none, line_number := none, audio_url := none }] }

def wSuras : List Sura :=
  [{ id := 1, name_arabic := "alfatiha", revelation_order := 5, verses_count := 2 }]

def wSuras2 : List Sura :=
  [{ id := 1, name_arabic := "a", revelation_order := 5, verses_count := 2 },
   { id := 2, name_arabic := "b", revelation_order := 1, verses_count := 1 }]

def wResults : Key → Option Payload :=
  fun k => if k = (1, 1) then some wPayload else none

def wResults2 : Key → Option PayloadV2 :=
  fun k => if k = (1, 1) then some wPayloadV2 else none

def wOrder : List Key := [(1, 1), (1, 2), (1, 3)]

def wFetch1 : Key → Option Payload :=
  fun k => if k = (1, 1) then some wPayload else none

def wFetch2 : Key → Option Payload :=
  fun k => if k = (1, 2) then some wPayload else none

def wResponses : Nat → Attempt := fun _ => .status 503

def cAyatRow : AyatRowV2 :=
  { ayat_id := 1, sura_id := 1, ayat_number := 1, text_uthmani := "b", juz_id := 1,
    hezb_id := 1, page_id := 1, sajdah_number := none, audio_url := none }

def emptyStore : Store :=
  { suras := none, ayats := none, words := none, juzs := none, hezbs := none, pages := none }

/-- A store that has been initialized by the v2 initializer and then had one
verse row loaded into `Ayats` (as the Sequential Loader does). -/
def cStore : Store := { initV2 [] emptyStore with ayats := some [cAyatRow] }

def wTable : Migrations.Table :=
  { cols := "audio_segments" :: Migrations.RETAINED, rows := [] }

def wDbJ : ImportJuzs.Db := { juzs := [], ayats := [] }

def wDbL : ImportLines.Db := { pages := [], suraIds := [], lines := [] }

/-! ## Theorems: the v1/v2 sequential loaders (C1, C2, C5) -/

theorem insertLoop_cons_none {results : Key → Option Payload} {k : Key} {ks : List Key}
    {a w : Nat} (h : results k = none) :
    insertLoop results (k :: ks) a w = insertLoop results ks a w := by
  simp [insertLoop, h]

theorem insertLoop_cons_some {results : Key → Option Payload} {k : Key} {ks : List Key}
    {a w : Nat} {p : Payload} (h : results k = some p) :
    insertLoop results (k :: ks) a w =
      (⟨a, k.1, k.2, p.text_uthmani, p.juz_number, p.hizb_number, p.page_number⟩ ::
          (insertLoop results ks (a + 1) (w + p.words.length)).1,
        verseWordRows w a p.words ++ (insertLoop results ks (a + 1) (w + p.words.length)).2) := by
  simp [insertLoop, h]

theorem insertLoop_fst_map_ayat_id (results : Key → Option Payload) (ks : List Key)
    (a w : Nat) :
    ((insertLoop results ks a w).1.map fun r => r.ayat_id) =
      List.range' a (ks.countP fun k => (results k).isSome) := by
  induction ks generalizing a w with
  | nil => simp [insertLoop]
  | cons k ks ih =>
    cases h : results k with
    | none => rw [insertLoop_cons_none h]; simp [List.countP_cons, h, ih]
    | some p =>
      rw [insertLoop_cons_some h]
      simp [List.countP_cons, h, List.range'_succ, ih]

theorem insertLoop_fst_map_key (results : Key → Option Payload) (ks : List Key)
    (a w : Nat) :
    ((insertLoop results ks a w).1.map fun r => (r.sura_id, r.ayat_number)) =
      ks.filter fun k => (results k).isSome := by
  induction ks generalizing a w with
  | nil => simp [insertLoop]
  | cons k ks ih =>
    cases h : results k with
    | none => rw [insertLoop_cons_none h]; simp [List.filter_cons, h, ih]
    | some p =>
      rw [insertLoop_cons_some h]
      simp [List.filter_cons, h, ih]

theorem insertLoopV2_cons_none {results : Key → Option PayloadV2} {k : Key} {ks : List Key}
    {a w : Nat} (h : results k = none) :
    insertLoopV2 results (k :: ks) a w = insertLoopV2 results ks a w := by
  simp [insertLoopV2, h]

theorem insertLoopV2_cons_some {results : Key → Option PayloadV2} {k : Key} {ks : List Key}
    {a w : Nat} {p : PayloadV2} (h : results k = some p) :
    insertLoopV2 results (k :: ks) a w =
      (⟨a, p.sura_id, p.ayat_number, p.text_uthmani, p.juz_id, p.hezb_id, p.page_id,
            p.sajdah_number, p.audio_url⟩ ::
          (insertLoopV2 results ks (a + 1) (w + p.words.length)).1,
        verseWordRowsV2 w a p.words ++
          (insertLoopV2 results ks (a + 1) (w + p.words.length)).2) := by
  simp [insertLoopV2, h]

theorem insertLoopV2_fst_map_ayat_id (results : Key → Option PayloadV2) (ks : List Key)
    (a w : Nat) :
    ((insertLoopV2 results ks a w).1.map fun r => r.ayat_id) =
      List.range' a (ks.countP fun k => (results k).isSome) := by
  induction ks generalizing a w with
  | nil => simp [insertLoopV2]
  | cons k ks ih =>
    cases h : results k with
    | none => rw [insertLoopV2_cons_none h]; simp [List.countP_cons, h, ih]
    | some p =>
      rw [insertLoopV2_cons_some h]
      simp [List.countP_cons, h, List.range'_succ, ih]

theorem insertLoopV2_fst_map_sura_id (results : Key → Option PayloadV2)
    (hecho : ∀ k p, results k = some p → p.sura_id = k.1) (ks : List Key) (a w : Nat) :
    ((insertLoopV2 results ks a w).1.map fun r => r.sura_id) =
      (ks.filter fun k => (results k).isSome).map fun k => k.1 := by
  induction ks generalizing a w with
  | nil => simp [insertLoopV2]
  | cons k ks ih =>
    cases h : results k with
    | none => rw [insertLoopV2_cons_none h]; simp [List.filter_cons, h, ih]
    | some p =>
      rw [insertLoopV2_cons_some h]
      simp [List.filter_cons, h, ih, hecho k p h]

/-- C1: for every canonical key sequence and result mapping, the Sequential
Loader walks the keys in canonical order, inserting exactly one `Ayats` row
per key present in the mapping (in order), and assigns the verse ids
`1..M` consecutively where `M` is the number of present keys; absent keys are
skipped without advancing the id counter, so later ids shift down.  The same
id assignment holds for the v2 loader. -/
theorem c1_loader_consecutive_ids (keys : List Key) (results : Key → Option Payload)
    (results2 : Key → Option PayloadV2) :
    ((loadAyats keys results).1.map fun r => r.ayat_id) =
        List.range' 1 (keys.countP fun k => (results k).isSome) ∧
      ((loadAyats keys results).1.map fun r => (r.sura_id, r.ayat_number)) =
        (keys.filter fun k => (results k).isSome) ∧
      ((loadAyatsV2 keys results2).1.map fun r => r.ayat_id) =
        List.range' 1 (keys.countP fun k => (results2 k).isSome) :=
  ⟨insertLoop_fst_map_ayat_id results keys 1 1,
    insertLoop_fst_map_key results keys 1 1,
    insertLoopV2_fst_map_ayat_id results2 keys 1 1⟩

theorem countP_and_split (l : List α) (p q : α → Bool) :
    l.countP p =
      l.countP (fun a => p a && q a) + l.countP (fun a => p a && !q a) := by
  induction l with
  | nil => simp
  | cons a l ih =>
    simp only [List.countP_cons, ih]
    cases hp : p a <;> cases hq : q a <;> simp <;> omega

theorem all_ayah_countP_fst (suras : List Sura) (s : Sura) (hs : s ∈ suras)
    (hnd : (suras.map fun t => t.id).Nodup) :
    ((all_ayah suras).countP fun k => k.1 == s.id) = s.verses_count := by
  induction suras with
  | nil => cases hs
  | cons t ts ih =>
    simp only [List.map_cons, List.nodup_cons, List.mem_map] at hnd
    simp only [all_ayah, List.flatMap_cons, List.countP_append, List.countP_map]
    rcases List.mem_cons.mp hs with rfl | hs'
    · have htail : ((ts.flatMap fun u =>
          (List.range u.verses_count).map fun v => (u.id, v + 1)).countP
            fun k => k.1 == s.id) = 0 := by
        rw [List.countP_eq_zero]
        intro k hk
        rcases List.mem_flatMap.mp hk with ⟨u, hu, hku⟩
        rcases List.mem_map.mp hku with ⟨v, _, rfl⟩
        simp only [beq_iff_eq]
        exact fun h => hnd.1 ⟨u, hu, h⟩
      rw [htail]
      simp [Function.comp_def]
    · have hne : t.id ≠ s.id := by
        intro h
        exact hnd.1 ⟨s, hs', h.symm⟩
      have hblock : (((List.range t.verses_count).countP
          ((fun k : Key => k.1 == s.id) ∘ fun v => (t.id, v + 1)))) = 0 := by
        rw [List.countP_eq_zero]
        intro v _
        simp [Function.comp_def, hne]
      rw [hblock]
      have := ih hs' hnd.2
      simp only [all_ayah] at this
      omega

theorem loadAyats_countP_sura (suras : List Sura) (results : Key → Option Payload)
    (s : Sura) (hs : s ∈ suras) (hnd : (suras.map fun t => t.id).Nodup) :
    ((loadAyats (all_ayah suras) results).1.countP fun r => r.sura_id == s.id) =
      s.verses_count -
        ((all_ayah suras).countP fun k => k.1 == s.id && (results k).isNone) := by
  have hmap := insertLoop_fst_map_key results (all_ayah suras) 1 1
  have h1 : ((loadAyats (all_ayah suras) results).1.countP fun r => r.sura_id == s.id) =
      (((loadAyats (all_ayah suras) results).1.map
        fun r => (r.sura_id, r.ayat_number)).countP fun k => k.1 == s.id) := by
    rw [List.countP_map]
    rfl
  rw [h1]
  simp only [loadAyats]
  rw [hmap, List.countP_filter]
  show ((all_ayah suras).countP fun k => k.1 == s.id && (results k).isSome) =
    s.verses_count - ((all_ayah suras).countP fun k => k.1 == s.id && (results k).isNone)
  have hsplit : ((all_ayah suras).countP fun k => k.1 == s.id) =
      ((all_ayah suras).countP fun k => k.1 == s.id && (results k).isSome) +
        ((all_ayah suras).countP fun k => k.1 == s.id && !(results k).isSome) :=
    countP_and_split (all_ayah suras) (fun k => k.1 == s.id) (fun k => (results k).isSome)
  have htot := all_ayah_countP_fst suras s hs hnd
  have hnone : ((all_ayah suras).countP fun k => k.1 == s.id && !(results k).isSome) =
      ((all_ayah suras).countP fun k => k.1 == s.id && (results k).isNone) := by
    apply List.countP_congr
    intro k _
    cases results k <;> simp
  omega

theorem loadAyatsV2_countP_sura (suras : List Sura) (results : Key → Option PayloadV2)
    (s : Sura) (hs : s ∈ suras) (hnd : (suras.map fun t => t.id).Nodup)
    (hecho : ∀ k p, results k = some p → p.sura_id = k.1) :
    ((loadAyatsV2 (all_ayah suras) results).1.countP fun r => r.sura_id == s.id) =
      s.verses_count -
        ((all_ayah suras).countP fun k => k.1 == s.id && (results k).isNone) := by
  have hmap := insertLoopV2_fst_map_sura_id results hecho (all_ayah suras) 1 1
  have h1 : ((loadAyatsV2 (all_ayah suras) results).1.countP fun r => r.sura_id == s.id) =
      (((loadAyatsV2 (all_ayah suras) results).1.map fun r => r.sura_id).countP
        fun c => c == s.id) := by
    rw [List.countP_map]
    rfl
  rw [h1]
  simp only [loadAyatsV2]
  rw [hmap, List.countP_map, show ((fun c : Nat => c == s.id) ∘ fun k : Key => k.1) =
    fun k : Key => k.1 == s.id from rfl, List.countP_filter]
  show ((all_ayah suras).countP fun k => k.1 == s.id && (results k).isSome) =
    s.verses_count - ((all_ayah suras).countP fun k => k.1 == s.id && (results k).isNone)
  have hsplit : ((all_ayah suras).countP fun k => k.1 == s.id) =
      ((all_ayah suras).countP fun k => k.1 == s.id && (results k).isSome) +
        ((all_ayah suras).countP fun k => k.1 == s.id && !(results k).isSome) :=
    countP_and_split (all_ayah suras) (fun k => k.1 == s.id) (fun k => (results k).isSome)
  have htot := all_ayah_countP_fst suras s hs hnd
  have hnone : ((all_ayah suras).countP fun k => k.1 == s.id && !(results k).isSome) =
      ((all_ayah suras).countP fun k => k.1 == s.id && (results k).isNone) := by
    apply List.countP_congr
    intro k _
    cases results k <;> simp
  omega

/-- C2: after the Sequential Loader finishes on the canonical key list of a
chapter list with distinct ids, the number of `Ayats` rows of chapter `s`
equals the chapter's declared verse count minus the number of
permanently-missing keys of that chapter — unconditionally for the v1 loader
(which writes the requested key's `sura_id`), and for the v2 loader under the
hypothesis that every fetched payload echoes the chapter id of the key it was
fetched for. -/
theorem c2_per_chapter_counts (suras : List Sura) (results : Key → Option Payload)
    (results2 : Key → Option PayloadV2) (s : Sura) (hs : s ∈ suras)
    (hnd : (suras.map fun t => t.id).Nodup)
    (hecho : ∀ k p, results2 k = some p → p.sura_id = k.1) :
    (((loadAyats (all_ayah suras) results).1.countP fun r => r.sura_id == s.id) =
        s.verses_count -
          ((all_ayah suras).countP fun k => k.1 == s.id && (results k).isNone)) ∧
      (((loadAyatsV2 (all_ayah suras) results2).1.countP fun r => r.sura_id == s.id) =
        s.verses_count -
          ((all_ayah suras).countP fun k => k.1 == s.id && (results2 k).isNone)) :=
  ⟨loadAyats_countP_sura suras results s hs hnd,
    loadAyatsV2_countP_sura suras results2 s hs hnd hecho⟩

theorem verseWordRows_map_word_number (w a : Nat) (ws : List WordRec) :
    ((verseWordRows w a ws).map fun x => x.word_number) = ws.map fun wd => wd.position := by
  induction ws generalizing w with
  | nil => rfl
  | cons x xs ih => simp [verseWordRows, ih]

theorem verseWordRows_ayat_id (w a : Nat) (ws : List WordRec) :
    ∀ x ∈ verseWordRows w a ws, x.ayat_id = a := by
  induction ws generalizing w with
  | nil => intro x hx; cases hx
  | cons y ys ih =>
    intro x hx
    rcases List.mem_cons.mp hx with rfl | hx'
    · rfl
    · exact ih (w + 1) x hx'

theorem insertLoop_snd_ayat_id_ge (results : Key → Option Payload) (ks : List Key)
    (a w : Nat) : ∀ x ∈ (insertLoop results ks a w).2, a ≤ x.ayat_id := by
  induction ks generalizing a w with
  | nil => intro x hx; simp [insertLoop] at hx
  | cons k ks ih =>
    intro x hx
    cases h : results k with
    | none =>
      rw [insertLoop_cons_none h] at hx
      exact ih a w x hx
    | some p =>
      rw [insertLoop_cons_some h] at hx
      rcases List.mem_append.mp hx with hx' | hx'
      · exact (verseWordRows_ayat_id w a p.words x hx').ge
      · exact Nat.le_of_succ_le (ih (a + 1) (w + p.words.length) x hx')

theorem insertLoop_fst_ayat_id_ge (results : Key → Option Payload) (ks : List Key)
    (a w : Nat) : ∀ r ∈ (insertLoop results ks a w).1, a ≤ r.ayat_id := by
  induction ks generalizing a w with
  | nil => intro r hr; simp [insertLoop] at hr
  | cons k ks ih =>
    intro r hr
    cases h : results k with
    | none =>
      rw [insertLoop_cons_none h] at hr
      exact ih a w r hr
    | some p =>
      rw [insertLoop_cons_some h] at hr
      rcases List.mem_cons.mp hr with rfl | hr'
      · exact Nat.le_refl a
      · exact Nat.le_of_succ_le (ih (a + 1) (w + p.words.length) r hr')

theorem insertLoop_words_of_verse (results : Key → Option Payload) (ks : List Key)
    (a w : Nat) :
    ∀ r ∈ (insertLoop results ks a w).1,
      ∃ p, results (r.sura_id, r.ayat_number) = some p ∧
        (((insertLoop results ks a w).2.filter fun x => x.ayat_id == r.ayat_id).map
          fun x => x.word_number) = p.words.map fun wd => wd.position := by
  induction ks generalizing a w with
  | nil => intro r hr; simp [insertLoop] at hr
  | cons k ks ih =>
    intro r hr
    cases h : results k with
    | none =>
      rw [insertLoop_cons_none h] at hr ⊢
      exact ih a w r hr
    | some p =>
      rw [insertLoop_cons_some h] at hr ⊢
      rcases List.mem_cons.mp hr with rfl | hr'
      · refine ⟨p, by rw [show ((k.1, k.2) : Key) = k from rfl]; exact h, ?_⟩
        rw [List.filter_append]
        have hblock : ((verseWordRows w a p.words).filter
            fun x => x.ayat_id == a) = verseWordRows w a p.words := by
          rw [List.filter_eq_self]
          intro x hx
          simp [verseWordRows_ayat_id w a p.words x hx]
        have hrest : (((insertLoop results ks (a + 1) (w + p.words.length)).2.filter
            fun x => x.ayat_id == a)) = [] := by
          rw [List.filter_eq_nil_iff]
          intro x hx
          have := insertLoop_snd_ayat_id_ge results ks (a + 1) (w + p.words.length) x hx
          simp only [beq_iff_eq]
          omega
        simp only [hblock, hrest, List.append_nil]
        exact verseWordRows_map_word_number w a p.words
      · obtain ⟨p', hp', hmap'⟩ := ih (a + 1) (w + p.words.length) r hr'
        have hra : a + 1 ≤ r.ayat_id :=
          insertLoop_fst_ayat_id_ge results ks (a + 1) (w + p.words.length) r hr'
        refine ⟨p', hp', ?_⟩
        rw [List.filter_append]
        have hblock : ((verseWordRows w a p.words).filter
            fun x => x.ayat_id == r.ayat_id) = [] := by
          rw [List.filter_eq_nil_iff]
          intro x hx
          have := verseWordRows_ayat_id w a p.words x hx
          simp only [beq_iff_eq]
          omega
        simp only [hblock, List.nil_append]
        exact hmap'

theorem verseWordRowsV2_map_word_number (w a : Nat) (ws : List WordRecV2) :
    ((verseWordRowsV2 w a ws).map fun x => x.word_number) = ws.map fun wd => wd.position := by
  induction ws generalizing w with
  | nil => rfl
  | cons x xs ih => simp [verseWordRowsV2, ih]

theorem verseWordRowsV2_ayat_id (w a : Nat) (ws : List WordRecV2) :
    ∀ x ∈ verseWordRowsV2 w a ws, x.ayat_id = a := by
  induction ws generalizing w with
  | nil => intro x hx; cases hx
  | cons y ys ih =>
    intro x hx
    rcases List.mem_cons.mp hx with rfl | hx'
    · rfl
    · exact ih (w + 1) x hx'

theorem insertLoopV2_snd_ayat_id_ge (results : Key → Option PayloadV2) (ks : List Key)
    (a w : Nat) : ∀ x ∈ (insertLoopV2 results ks a w).2, a ≤ x.ayat_id := by
  induction ks generalizing a w with
  | nil => intro x hx; simp [insertLoopV2] at hx
  | cons k ks ih =>
    intro x hx
    cases h : results k with
    | none =>
      rw [insertLoopV2_cons_none h] at hx
      exact ih a w x hx
    | some p =>
      rw [insertLoopV2_cons_some h] at hx
      rcases List.mem_append.mp hx with hx' | hx'
      · exact (verseWordRowsV2_ayat_id w a p.words x hx').ge
      · exact Nat.le_of_succ_le (ih (a + 1) (w + p.words.length) x hx')

theorem insertLoopV2_fst_ayat_id_ge (results : Key → Option PayloadV2) (ks : List Key)
    (a w : Nat) : ∀ r ∈ (insertLoopV2 results ks a w).1, a ≤ r.ayat_id := by
  induction ks generalizing a w with
  | nil => intro r hr; simp [insertLoopV2] at hr
  | cons k ks ih =>
    intro r hr
    cases h : results k with
    | none =>
      rw [insertLoopV2_cons_none h] at hr
      exact ih a w r hr
    | some p =>
      rw [insertLoopV2_cons_some h] at hr
      rcases List.mem_cons.mp hr with rfl | hr'
      · exact Nat.le_refl a
      · exact Nat.le_of_succ_le (ih (a + 1) (w + p.words.length) r hr')

theorem insertLoopV2_words_of_verse (results : Key → Option PayloadV2) (ks : List Key)
    (a w : Nat) :
    ∀ r ∈ (insertLoopV2 results ks a w).1,
      ∃ k p, results k = some p ∧
        (((insertLoopV2 results ks a w).2.filter fun x => x.ayat_id == r.ayat_id).map
          fun x => x.word_number) = p.words.map fun wd => wd.position := by
  induction ks generalizing a w with
  | nil => intro r hr; simp [insertLoopV2] at hr
  | cons k ks ih =>
    intro r hr
    cases h : results k with
    | none =>
      rw [insertLoopV2_cons_none h] at hr ⊢
      exact ih a w r hr
    | some p =>
      rw [insertLoopV2_cons_some h] at hr ⊢
      rcases List.mem_cons.mp hr with rfl | hr'
      · refine ⟨k, p, h, ?_⟩
        rw [List.filter_append]
        have hblock : ((verseWordRowsV2 w a p.words).filter
            fun x => x.ayat_id == a) = verseWordRowsV2 w a p.words := by
          rw [List.filter_eq_self]
          intro x hx
          simp [verseWordRowsV2_ayat_id w a p.words x hx]
        have hrest : (((insertLoopV2 results ks (a + 1) (w + p.words.length)).2.filter
            fun x => x.ayat_id == a)) = [] := by
          rw [List.filter_eq_nil_iff]
          intro x hx
          have := insertLoopV2_snd_ayat_id_ge results ks (a + 1) (w + p.words.length) x hx
          simp only [beq_iff_eq]
          omega
        simp only [hblock, hrest, List.append_nil]
        exact verseWordRowsV2_map_word_number w a p.words
      · obtain ⟨k', p', hp', hmap'⟩ := ih (a + 1) (w + p.words.length) r hr'
        have hra : a + 1 ≤ r.ayat_id :=
          insertLoopV2_fst_ayat_id_ge results ks (a + 1) (w + p.words.length) r hr'
        refine ⟨k', p', hp', ?_⟩
        rw [List.filter_append]
        have hblock : ((verseWordRowsV2 w a p.words).filter
            fun x => x.ayat_id == r.ayat_id) = [] := by
          rw [List.filter_eq_nil_iff]
          intro x hx
          have := verseWordRowsV2_ayat_id w a p.words x hx
          simp only [beq_iff_eq]
          omega
        simp only [hblock, List.nil_append]
        exact hmap'

/-- C5: for every successfully loaded verse, the `word_number` values of the
`Words` rows inserted for it (the rows carrying its verse id) are exactly the
payload's `position` values; hence under the hypothesis that each payload's
word positions form the contiguous sequence `1..n`, the inserted
`word_number`s form `1..n` (contiguous, gap-free) and are pairwise distinct —
regardless of which other verses are missing from the result mapping.  Stated
for both loaders, which copy `position` identically. -/
theorem c5_word_positions (keys : List Key) (results : Key → Option Payload)
    (results2 : Key → Option PayloadV2)
    (h1 : ∀ k p, results k = some p →
      (p.words.map fun wd => wd.position) = List.range' 1 p.words.length)
    (h2 : ∀ k p, results2 k = some p →
      (p.words.map fun wd => wd.position) = List.range' 1 p.words.length) :
    (∀ r ∈ (loadAyats keys results).1,
      (((loadAyats keys results).2.filter fun x => x.ayat_id == r.ayat_id).map
          fun x => x.word_number) =
        List.range' 1
          ((loadAyats keys results).2.filter fun x => x.ayat_id == r.ayat_id).length ∧
      (((loadAyats keys results).2.filter fun x => x.ayat_id == r.ayat_id).map
        fun x => x.word_number).Nodup) ∧
    (∀ r ∈ (loadAyatsV2 keys results2).1,
      (((loadAyatsV2 keys results2).2.filter fun x => x.ayat_id == r.ayat_id).map
          fun x => x.word_number) =
        List.range' 1
          ((loadAyatsV2 keys results2).2.filter fun x => x.ayat_id == r.ayat_id).length ∧
      (((loadAyatsV2 keys results2).2.filter fun x => x.ayat_id == r.ayat_id).map
        fun x => x.word_number).Nodup) := by
  constructor
  · intro r hr
    obtain ⟨p, hp, hmap⟩ := insertLoop_words_of_verse results keys 1 1 r hr
    have hpos := h1 _ p hp
    have hlen : ((loadAyats keys results).2.filter
        fun x => x.ayat_id == r.ayat_id).length = p.words.length := by
      have := congrArg List.length hmap
      simpa using this
    rw [show loadAyats keys results = insertLoop results keys 1 1 from rfl] at hlen ⊢
    rw [hmap, hpos, ← hlen]
    exact ⟨rfl, by rw [hlen]; exact List.nodup_range' 1 p.words.length⟩
  · intro r hr
    obtain ⟨k, p, hp, hmap⟩ := insertLoopV2_words_of_verse results2 keys 1 1 r hr
    have hpos := h2 k p hp
    have hlen : ((loadAyatsV2 keys results2).2.filter
        fun x => x.ayat_id == r.ayat_id).length = p.words.length := by
      have := congrArg List.length hmap
      simpa using this
    rw [show loadAyatsV2 keys results2 = insertLoopV2 results2 keys 1 1 from rfl] at hlen ⊢
    rw [hmap, hpos, ← hlen]
    exact ⟨rfl, by rw [hlen]; exact List.nodup_range' 1 p.words.length⟩

/-! ## Theorems: Result Aggregator and Recovery Pass (C6) -/

theorem recoveryPass_calls (fetch2 : Key → Option Payload) (errs : List Key)
    (res : Key → Option Payload) : (recoveryPass fetch2 errs res).2.1 = errs := by
  induction errs generalizing res with
  | nil => rfl
  | cons k ks ih =>
    cases h : fetch2 k <;> simp [recoveryPass, h, ih]

theorem recoveryPass_failed (fetch2 : Key → Option Payload) (errs : List Key)
    (res : Key → Option Payload) :
    (recoveryPass fetch2 errs res).2.2 = errs.filter fun k => (fetch2 k).isNone := by
  induction errs generalizing res with
  | nil => rfl
  | cons k ks ih =>
    cases h : fetch2 k <;> simp [recoveryPass, List.filter_cons, h, ih]

theorem recoveryPass_not_mem (fetch2 : Key → Option Payload) (errs : List Key)
    (res : Key → Option Payload) (k : Key) (hk : k ∉ errs) :
    (recoveryPass fetch2 errs res).1 k = res k := by
  induction errs generalizing res with
  | nil => rfl
  | cons e es ih =>
    have hne : k ≠ e := fun h => hk (h ▸ List.mem_cons_self e es)
    have hks : k ∉ es := fun h => hk (List.mem_cons_of_mem e h)
    cases h : fetch2 e with
    | none => simp only [recoveryPass, h]; exact ih res hks
    | some p =>
      simp only [recoveryPass, h]
      rw [ih _ hks]
      simp [hne]

theorem recoveryPass_mem (fetch2 : Key → Option Payload) (errs : List Key)
    (res : Key → Option Payload) (hnd : errs.Nodup) (k : Key) (hk : k ∈ errs) :
    (recoveryPass fetch2 errs res).1 k =
      match fetch2 k with
      | some p => some p
      | none => res k := by
  induction errs generalizing res with
  | nil => cases hk
  | cons e es ih =>
    rw [List.nodup_cons] at hnd
    rcases List.mem_cons.mp hk with rfl | hk'
    · cases h : fetch2 k with
      | none =>
        simp only [recoveryPass, h]
        exact recoveryPass_not_mem fetch2 es res k hnd.1
      | some p =>
        simp only [recoveryPass, h]
        rw [recoveryPass_not_mem fetch2 es _ k hnd.1]
        simp
    · have hne : k ≠ e := fun h => hnd.1 (h ▸ hk')
      cases h : fetch2 e with
      | none =>
        simp only [recoveryPass, h]
        exact ih res hnd.2 hk'
      | some p =>
        simp only [recoveryPass, h]
        rw [ih _ hnd.2 hk']
        cases hfk : fetch2 k <;> simp [hne]

theorem aggregate_foldl_errors (fetch1 : Key → Option Payload) (order : List Key)
    (acc : (Key → Option Payload) × List Key) :
    (order.foldl (aggregateStep fetch1) acc).2 =
      acc.2 ++ order.filter fun k => (fetch1 k).isNone := by
  induction order generalizing acc with
  | nil => simp
  | cons k ks ih =>
    cases h : fetch1 k <;>
      simp [aggregateStep, List.filter_cons, h, ih, List.append_assoc]

theorem aggregate_foldl_not_mem (fetch1 : Key → Option Payload) (order : List Key)
    (acc : (Key → Option Payload) × List Key) (k : Key) (hk : k ∉ order) :
    (order.foldl (aggregateStep fetch1) acc).1 k = acc.1 k := by
  induction order generalizing acc with
  | nil => rfl
  | cons e es ih =>
    have hne : k ≠ e := fun h => hk (h ▸ List.mem_cons_self e es)
    have hks : k ∉ es := fun h => hk (List.mem_cons_of_mem e h)
    cases h : fetch1 e with
    | none => simp only [List.foldl_cons, aggregateStep, h]; exact ih _ hks
    | some p =>
      simp only [List.foldl_cons, aggregateStep, h]
      rw [ih _ hks]
      simp [hne]

theorem aggregate_foldl_mem (fetch1 : Key → Option Payload) (order : List Key)
    (acc : (Key → Option Payload) × List Key) (hnd : order.Nodup) (k : Key)
    (hk : k ∈ order) :
    (order.foldl (aggregateStep fetch1) acc).1 k =
      match fetch1 k with
      | some p => some p
      | none => acc.1 k := by
  induction order generalizing acc with
  | nil => cases hk
  | cons e es ih =>
    rw [List.nodup_cons] at hnd
    rcases List.mem_cons.mp hk with rfl | hk'
    · cases h : fetch1 k with
      | none =>
        simp only [List.foldl_cons, aggregateStep, h]
        exact aggregate_foldl_not_mem fetch1 es _ k hnd.1
      | some p =>
        simp only [List.foldl_cons, aggregateStep, h]
        rw [aggregate_foldl_not_mem fetch1 es _ k hnd.1]
        simp
    · have hne : k ≠ e := fun h => hnd.1 (h ▸ hk')
      cases h : fetch1 e with
      | none =>
        simp only [List.foldl_cons, aggregateStep, h]
        exact ih _ hnd.2 hk'
      | some p =>
        simp only [List.foldl_cons, aggregateStep, h]
        rw [ih _ hnd.2 hk']
        cases hfk : fetch1 k <;> simp [hne]

theorem aggregate_errors (fetch1 : Key → Option Payload) (order : List Key) :
    (aggregate fetch1 order).2 = order.filter fun k => (fetch1 k).isNone := by
  rw [aggregate, aggregate_foldl_errors]
  rfl

theorem aggregate_apply_mem (fetch1 : Key → Option Payload) (order : List Key)
    (hnd : order.Nodup) (k : Key) (hk : k ∈ order) :
    (aggregate fetch1 order).1 k = fetch1 k := by
  rw [aggregate, aggregate_foldl_mem fetch1 order _ hnd k hk]
  cases fetch1 k <;> rfl

/-- C6: for the keys the Result Aggregator records as failed, the Recovery
Pass re-issues the fetch exactly once per key, serially in order (the call
trace equals the failed-key list); a successful retry merges the payload into
the results mapping exactly as a first-pass success (the final mapping agrees
with the retry outcome on failed keys and is untouched elsewhere); a key
whose retry also fails stays absent from the mapping and is reported; and the
Sequential Loader then loads exactly the keys present in the final mapping,
skipping the permanently-missing ones. -/
theorem c6_recovery_pass (fetch1 fetch2 : Key → Option Payload)
    (order keys : List Key) (hnd : order.Nodup) :
    (recoveryPass fetch2 (aggregate fetch1 order).2 (aggregate fetch1 order).1).2.1 =
        (aggregate fetch1 order).2 ∧
      (recoveryPass fetch2 (aggregate fetch1 order).2 (aggregate fetch1 order).1).2.2 =
        (aggregate fetch1 order).2.filter (fun k => (fetch2 k).isNone) ∧
      (∀ k ∈ (aggregate fetch1 order).2,
        (recoveryPass fetch2 (aggregate fetch1 order).2 (aggregate fetch1 order).1).1 k =
          fetch2 k) ∧
      (∀ k, k ∉ (aggregate fetch1 order).2 →
        (recoveryPass fetch2 (aggregate fetch1 order).2 (aggregate fetch1 order).1).1 k =
          (aggregate fetch1 order).1 k) ∧
      ((loadAyats keys
          (recoveryPass fetch2 (aggregate fetch1 order).2 (aggregate fetch1 order).1).1).1.map
        fun r => (r.sura_id, r.ayat_number)) =
        keys.filter fun k =>
          ((recoveryPass fetch2 (aggregate fetch1 order).2 (aggregate fetch1 order).1).1
            k).isSome := by
  have herrs := aggregate_errors fetch1 order
  have hnderr : (aggregate fetch1 order).2.Nodup := herrs ▸ hnd.filter _
  refine ⟨recoveryPass_calls _ _ _, recoveryPass_failed _ _ _, ?_, ?_, ?_⟩
  · intro k hk
    have hk' := hk
    rw [herrs, List.mem_filter] at hk'
    have hres : (aggregate fetch1 order).1 k = none := by
      rw [aggregate_apply_mem fetch1 order hnd k hk'.1]
      cases h : fetch1 k with
      | none => rfl
      | some p => rw [h] at hk'; simp at hk'
    rw [recoveryPass_mem fetch2 _ _ hnderr k hk]
    cases h : fetch2 k with
    | none => exact hres
    | some p => rfl
  · intro k hk
    exact recoveryPass_not_mem fetch2 _ _ k hk
  · exact insertLoop_fst_map_key _ keys 1 1

/-! ## Theorems: Key Enumerator (C4) -/

theorem all_ayah_mem (suras : List Sura) (c v : Nat) :
    (c, v) ∈ all_ayah suras ↔
      ∃ s ∈ suras, s.id = c ∧ 1 ≤ v ∧ v ≤ s.verses_count := by
  simp only [all_ayah, List.mem_flatMap, List.mem_map, List.mem_range]
  constructor
  · rintro ⟨s, hs, i, hi, heq⟩
    rw [Prod.mk.injEq] at heq
    exact ⟨s, hs, heq.1, by omega⟩
  · rintro ⟨s, hs, rfl, h1, h2⟩
    exact ⟨s, hs, v - 1, by omega, by rw [Nat.sub_add_cancel h1]⟩

theorem all_ayah_nodup (suras : List Sura)
    (hnd : (suras.map fun s => s.id).Nodup) : (all_ayah suras).Nodup := by
  rw [all_ayah, List.nodup_flatMap]
  constructor
  · intro s _
    refine List.Nodup.map ?_ (List.nodup_range _)
    intro a b hab
    rw [Prod.mk.injEq] at hab
    omega
  · have hpw : suras.Pairwise fun s t => s.id ≠ t.id := List.pairwise_map.mp hnd
    refine hpw.imp ?_
    intro s t hst
    intro x hxs hxt
    rcases List.mem_map.mp hxs with ⟨i, _, rfl⟩
    rcases List.mem_map.mp hxt with ⟨j, _, hj⟩
    rw [Prod.mk.injEq] at hj
    exact hst hj.1.symm

theorem all_ayah_sorted (suras : List Sura)
    (hsorted : (suras.map fun s => s.id).Pairwise (· < ·)) :
    (all_ayah suras).Pairwise keyLt := by
  rw [all_ayah, List.pairwise_flatMap]
  constructor
  · intro s _
    refine List.pairwise_map.mpr ?_
    refine (List.pairwise_lt_range s.verses_count).imp ?_
    intro a b hab
    exact Or.inr ⟨rfl, by omega⟩
  · have hpw : suras.Pairwise fun s t => s.id < t.id := List.pairwise_map.mp hsorted
    refine hpw.imp ?_
    intro s t hst x hxs y hyt
    rcases List.mem_map.mp hxs with ⟨i, _, rfl⟩
    rcases List.mem_map.mp hyt with ⟨j, _, rfl⟩
    exact Or.inl hst

theorem all_ayah_keys_aux (l : List Sura) (b n : Nat)
    (h : (l.map fun s => s.id) = List.range' (b + 1) n) :
    ((List.range n).flatMap fun i =>
      match l.find? (fun s => s.id == i + (b + 1)) with
      | some s => (List.range s.verses_count).map fun v => (s.id, v + 1)
      | none => []) =
      l.flatMap fun s => (List.range s.verses_count).map fun v => (s.id, v + 1) := by
  induction l generalizing b n with
  | nil =>
    have hn : n = 0 := by simpa using (congrArg List.length h).symm
    subst hn
    simp
  | cons s t ih =>
    cases n with
    | zero => simp at h
    | succ m =>
      rw [List.range'_succ] at h
      simp only [List.map_cons, List.cons.injEq] at h
      obtain ⟨hs, ht⟩ := h
      rw [List.range_succ_eq_map, List.flatMap_cons, List.flatMap_map]
      have hf0 : ((s :: t).find? fun u => u.id == 0 + (b + 1)) = some s :=
        List.find?_cons_of_pos _ (by simp [hs])
      rw [hf0]
      have hfun : (fun i => match (s :: t).find? (fun u => u.id == Nat.succ i + (b + 1)) with
          | some u => (List.range u.verses_count).map fun v => (u.id, v + 1)
          | none => ([] : List Key)) =
          fun i => match t.find? (fun u => u.id == i + (b + 1 + 1)) with
          | some u => (List.range u.verses_count).map fun v => (u.id, v + 1)
          | none => [] := by
        funext i
        have hne : ((s.id == Nat.succ i + (b + 1)) : Bool) = false := by
          simp only [beq_eq_false_iff_ne, ne_eq, hs]
          omega
        rw [List.find?_cons_of_neg _ (by simp [hne]),
          show Nat.succ i + (b + 1) = i + (b + 1 + 1) from by omega]
      rw [hfun, ih (b + 1) m ht, List.flatMap_cons]

theorem all_ayah_keys_eq (suras : List Sura)
    (h : (suras.map fun s => s.id) = (List.range 114).map fun i => i + 1) :
    all_ayah_keys suras = all_ayah suras := by
  have h' : (suras.map fun s => s.id) = List.range' (0 + 1) 114 := by
    rw [h, List.range'_eq_map_range]
    exact List.map_congr_left fun a _ => by omega
  have haux := all_ayah_keys_aux suras 0 114 h'
  simp only [Nat.zero_add] at haux
  simp only [all_ayah_keys, all_ayah]
  exact haux

/-- C4: given a chapter list whose ids are strictly ascending, the Key
Enumerator of `download_v2.py` produces the sequence containing every pair
`(c, v)` with `1 ≤ v ≤ verses_count(c)` (for `c` a listed chapter id) exactly
once, in chapter-ascending then verse-ascending order, as a function of the
chapter metadata alone; and the `download.py` enumerator produces the very
same sequence whenever the chapter ids are exactly `1..114` in order. -/
theorem c4_key_enumerator (suras : List Sura)
    (hsorted : (suras.map fun s => s.id).Pairwise (· < ·)) :
    (∀ c v, (c, v) ∈ all_ayah suras ↔
        ∃ s ∈ suras, s.id = c ∧ 1 ≤ v ∧ v ≤ s.verses_count) ∧
      (all_ayah suras).Nodup ∧
      (all_ayah suras).Pairwise keyLt ∧
      ((suras.map fun s => s.id) = ((List.range 114).map fun i => i + 1) →
        all_ayah_keys suras = all_ayah suras) :=
  ⟨fun c v => all_ayah_mem suras c v,
    all_ayah_nodup suras (hsorted.imp fun h => Nat.ne_of_lt h),
    all_ayah_sorted suras hsorted,
    fun h => all_ayah_keys_eq suras h⟩

/-! ## Theorems: Schema Initializer (C3) -/

theorem insertIfNew_extends (c : α → α → Bool) (rows : List α) (r : α) :
    insertIfNew c rows r = rows ∨ insertIfNew c rows r = rows ++ [r] := by
  unfold insertIfNew
  split
  · exact Or.inl rfl
  · exact Or.inr rfl

theorem insertAll_extends (c : α → α → Bool) (rows new : List α) :
    ∃ e, insertAll c rows new = rows ++ e := by
  induction new generalizing rows with
  | nil => exact ⟨[], by simp [insertAll]⟩
  | cons x xs ih =>
    rcases ih (insertIfNew c rows x) with ⟨e, he⟩
    rcases insertIfNew_extends c rows x with h | h
    · exact ⟨e, by simpa [insertAll, h] using he⟩
    · refine ⟨[x] ++ e, ?_⟩
      have : insertAll c rows (x :: xs) = insertAll c (insertIfNew c rows x) xs := rfl
      rw [this, he, h, List.append_assoc]

theorem insertIfNew_conflict (c : α → α → Bool) (rows : List α) (r : α)
    (hc : c r r = true) : (insertIfNew c rows r).any (c r) = true := by
  unfold insertIfNew
  split
  · assumption
  · simp [List.any_append, hc]

theorem insertAll_conflict_all (c : α → α → Bool) (hc : ∀ r, c r r = true)
    (rows new : List α) : ∀ r ∈ new, (insertAll c rows new).any (c r) = true := by
  induction new generalizing rows with
  | nil => intro r hr; cases hr
  | cons x xs ih =>
    intro r hr
    have hstep : insertAll c rows (x :: xs) = insertAll c (insertIfNew c rows x) xs := rfl
    rcases List.mem_cons.mp hr with rfl | hr'
    · rcases insertAll_extends c (insertIfNew c rows r) xs with ⟨e, he⟩
      rw [hstep, he, List.any_append, insertIfNew_conflict c rows r (hc r)]
      rfl
    · rw [hstep]
      exact ih (insertIfNew c rows x) r hr'

theorem insertAll_of_conflicts (c : α → α → Bool) (rows new : List α)
    (h : ∀ r ∈ new, rows.any (c r) = true) : insertAll c rows new = rows := by
  induction new with
  | nil => rfl
  | cons x xs ih =>
    have hx : insertIfNew c rows x = rows := by
      unfold insertIfNew
      rw [if_pos (h x (List.mem_cons_self x xs))]
    have hstep : insertAll c rows (x :: xs) = insertAll c (insertIfNew c rows x) xs := rfl
    rw [hstep, hx]
    exact ih fun r hr => h r (List.mem_cons_of_mem x hr)

theorem insertAll_idem (c : α → α → Bool) (hc : ∀ r, c r r = true) (rows new : List α) :
    insertAll c (insertAll c rows new) new = insertAll c rows new :=
  insertAll_of_conflicts c _ new (insertAll_conflict_all c hc rows new)

theorem createIfAbsent_idem (t : Option (List α)) :
    createIfAbsent (createIfAbsent t) = createIfAbsent t := by
  cases t <;> rfl

theorem staticJuzs_idem (rows : List JuzRow) :
    staticJuzs (staticJuzs rows) = staticJuzs rows :=
  insertAll_idem juzConflict (fun r => by simp [juzConflict]) rows _

theorem staticHezbs_idem (rows : List HezbRow) :
    staticHezbs (staticHezbs rows) = staticHezbs rows :=
  insertAll_idem hezbConflict (fun r => by simp [hezbConflict]) rows _

theorem staticPages_idem (rows : List PageRow) :
    staticPages (staticPages rows) = staticPages rows :=
  insertAll_idem pageConflict (fun r => by simp [pageConflict]) rows _

theorem insertSuras_idem (rows : List SuraRow) (api : List Sura) :
    insertSuras (insertSuras rows api) api = insertSuras rows api :=
  insertAll_idem suraConflict (fun r => by simp [suraConflict]) rows _

theorem createIfAbsent_some (l : List α) : createIfAbsent (some l) = some l := rfl

theorem initV1_idem (api : List Sura) (st : Store) :
    initV1 api (initV1 api st) = initV1 api st := by
  simp only [initV1, Store.mk.injEq, createIfAbsent_some, Option.getD_some,
    Option.some.injEq]
  exact ⟨insertSuras_idem _ api, createIfAbsent_idem st.ayats, createIfAbsent_idem st.words,
    staticJuzs_idem _, staticHezbs_idem _, staticPages_idem _⟩

theorem initV2_idem (api : List Sura) (st : Store) :
    initV2 api (initV2 api st) = initV2 api st := by
  simp only [initV2, Store.mk.injEq, createIfAbsent_some, Option.getD_some,
    Option.some.injEq]
  exact ⟨insertSuras_idem _ api, trivial, trivial, staticJuzs_idem _, staticHezbs_idem _,
    staticPages_idem _⟩

/-- C3 (amended): both Schema Initializers are idempotent
(`init (init st) = init st`), and re-running either initializer preserves
every already-present `Suras`/`Juzs`/`Hezbs`/`Pages` table and all its
existing rows in place (new rows are only appended, and on a re-run nothing
new is appended by idempotence); the v1 initializer also preserves existing
`Ayats` and `Words` data — but the v2 initializer does NOT: its
`recreate_ayats_words` drops and recreates `Ayats` and `Words`, discarding
any rows they contained (see the counterexample). -/
theorem c3_schema_init_amended :
    (∀ api st, initV1 api (initV1 api st) = initV1 api st) ∧
      (∀ api st, initV2 api (initV2 api st) = initV2 api st) ∧
      (∀ (api : List Sura) (st : Store) l, st.suras = some l →
        ∃ e, (initV1 api st).suras = some (l ++ e)) ∧
      (∀ (api : List Sura) (st : Store) l, st.juzs = some l →
        ∃ e, (initV1 api st).juzs = some (l ++ e)) ∧
      (∀ (api : List Sura) (st : Store) l, st.hezbs = some l →
        ∃ e, (initV1 api st).hezbs = some (l ++ e)) ∧
      (∀ (api : List Sura) (st : Store) l, st.pages = some l →
        ∃ e, (initV1 api st).pages = some (l ++ e)) ∧
      (∀ (api : List Sura) (st : Store) l, st.ayats = some l →
        (initV1 api st).ayats = some l) ∧
      (∀ (api : List Sura) (st : Store) l, st.words = some l →
        (initV1 api st).words = some l) ∧
      (∀ (api : List Sura) (st : Store) l, st.suras = some l →
        ∃ e, (initV2 api st).suras = some (l ++ e)) ∧
      (∀ (api : List Sura) (st : Store) l, st.juzs = some l →
        ∃ e, (initV2 api st).juzs = some (l ++ e)) ∧
      (∀ (api : List Sura) (st : Store) l, st.hezbs = some l →
        ∃ e, (initV2 api st).hezbs = some (l ++ e)) ∧
      (∀ (api : List Sura) (st : Store) l, st.pages = some l →
        ∃ e, (initV2 api st).pages = some (l ++ e)) := by
  refine ⟨initV1_idem, initV2_idem, ?_, ?_, ?_, ?_, ?_, ?_, ?_, ?_, ?_, ?_⟩
  · intro api st l hl
    simp only [initV1, hl, createIfAbsent_some, Option.getD_some, Option.some.injEq,
      insertSuras]
    exact insertAll_extends _ l _
  · intro api st l hl
    simp only [initV1, hl, createIfAbsent_some, Option.getD_some, Option.some.injEq,
      staticJuzs]
    exact insertAll_extends _ l _
  · intro api st l hl
    simp only [initV1, hl, createIfAbsent_some, Option.getD_some, Option.some.injEq,
      staticHezbs]
    exact insertAll_extends _ l _
  · intro api st l hl
    simp only [initV1, hl, createIfAbsent_some, Option.getD_some, Option.some.injEq,
      staticPages]
    exact insertAll_extends _ l _
  · intro api st l hl
    simp only [initV1, hl, createIfAbsent_some]
  · intro api st l hl
    simp only [initV1, hl, createIfAbsent_some]
  · intro api st l hl
    simp only [initV2, hl, createIfAbsent_some, Option.getD_some, Option.some.injEq,
      insertSuras]
    exact insertAll_extends _ l _
  · intro api st l hl
    simp only [initV2, hl, createIfAbsent_some, Option.getD_some, Option.some.injEq,
      staticJuzs]
    exact insertAll_extends _ l _
  · intro api st l hl
    simp only [initV2, hl, createIfAbsent_some, Option.getD_some, Option.some.injEq,
      staticHezbs]
    exact insertAll_extends _ l _
  · intro api st l hl
    simp only [initV2, hl, createIfAbsent_some, Option.getD_some, Option.some.injEq,
      staticPages]
    exact insertAll_extends _ l _

/-! ## Theorems: per-request retry policy (C7) -/

theorem retryRun_le (cfg : RetryConfig) (m : String) (responses : Nat → Attempt)
    (i fuel : Nat) : (retryRun cfg m responses i fuel).1 ≤ i + fuel := by
  induction fuel generalizing i with
  | zero => exact Nat.le_refl i
  | succ n ih =>
    rw [retryRun]
    split
    · exact le_trans (ih (i + 1)) (by omega)
    · omega

theorem retryRun_all_retryable (cfg : RetryConfig) (m : String)
    (responses : Nat → Attempt) (i fuel : Nat)
    (h : ∀ j, isRetryable cfg m (responses j) = true) :
    retryRun cfg m responses i fuel = (i + fuel, responses (i + fuel)) := by
  induction fuel generalizing i with
  | zero => rfl
  | succ n ih =>
    rw [retryRun, if_pos (h i), ih (i + 1)]
    have : i + 1 + n = i + (n + 1) := by omega
    rw [this]

theorem retryRun_stop (cfg : RetryConfig) (m : String) (responses : Nat → Attempt)
    (i fuel : Nat) (h : isRetryable cfg m (responses i) = false) :
    retryRun cfg m responses i fuel = (i, responses i) := by
  cases fuel with
  | zero => rfl
  | succ n =>
    rw [retryRun, if_neg]
    simp [h]

/-- C7: every per-verse request is configured (via `_make_session` in
`download.py` and `make_session` in `download_v2.py`, which pass identical
`Retry` arguments) with bounded automatic retry with exponential backoff
exactly for the transient statuses 429, 500, 502, 503, 504 and for
connection-level errors, with a budget of 5 retries per leg
(total/read/connect); a non-retryable outcome is surfaced immediately, an
unbroken run of retryable outcomes is surfaced after exactly 5 retries
(attempt index 5), and never more than 5 retries happen. -/
theorem c7_retry_policy :
    sessionRetry.status_forcelist = [429, 500, 502, 503, 504] ∧
      sessionRetry.total = 5 ∧ sessionRetry.read = 5 ∧ sessionRetry.connect = 5 ∧
      sessionRetry.raise_on_status = false ∧
      (∀ code, isRetryable sessionRetry "GET" (.status code) = true ↔
        code ∈ [429, 500, 502, 503, 504]) ∧
      isRetryable sessionRetry "GET" .connError = true ∧
      (∀ responses : Nat → Attempt,
        (retryRun sessionRetry "GET" responses 0 sessionRetry.total).1 ≤ 5) ∧
      (∀ responses : Nat → Attempt, isRetryable sessionRetry "GET" (responses 0) = false →
        retryRun sessionRetry "GET" responses 0 sessionRetry.total = (0, responses 0)) ∧
      (∀ responses : Nat → Attempt,
        (∀ j, isRetryable sessionRetry "GET" (responses j) = true) →
        retryRun sessionRetry "GET" responses 0 sessionRetry.total = (5, responses 5)) ∧
      (∀ n, backoffTime sessionRetry (n + 1) = 2 * backoffTime sessionRetry n) := by
  refine ⟨rfl, rfl, rfl, rfl, rfl, ?_, rfl, ?_, ?_, ?_, ?_⟩
  · intro code
    simp [isRetryable, sessionRetry]
  · intro responses
    exact retryRun_le sessionRetry "GET" responses 0 5
  · intro responses h
    exact retryRun_stop sessionRetry "GET" responses 0 5 h
  · intro responses h
    exact retryRun_all_retryable sessionRetry "GET" responses 0 5 h
  · intro n
    simp only [backoffTime, pow_succ]
    ring

/-! ## Theorems: missing input files (C8) -/

/-- C8: if the read-only source database or the target database file is
absent, both `import_juzs` and `import_lines` report and return early: the
target database state after the call equals its state before the call. -/
theorem c8_missing_input_no_mutation (se te : Bool)
    (srcJ : List ImportJuzs.SourceRow) (dbJ : ImportJuzs.Db)
    (srcL : List ImportLines.SourceRow) (dbL : ImportLines.Db)
    (h : se = false ∨ te = false) :
    ImportJuzs.import_juzs se te srcJ dbJ = dbJ ∧
      ImportLines.import_lines se te srcL dbL = dbL := by
  rcases h with rfl | rfl
  · constructor <;> rfl
  · cases se <;> constructor <;> rfl

/-! ## Theorems: `drop_audio_segments` (C9) -/

/-- C9: on a database whose `Ayats` table consists of the nine retained
columns plus `audio_segments`, a failing `ALTER TABLE DROP COLUMN`
(`alterSupported = false`) makes `drop_audio_segments` fall back to the full
rebuild; both the `ALTER` strategy and the rebuild strategy leave exactly the
original rows restricted to the nine retained columns (they are observably
equivalent column-by-column, with the same row count and the same resulting
column set); and when `audio_segments` is absent the operation changes
nothing. -/
theorem c9_drop_audio_segments_equiv (t : Migrations.Table) (hnd : t.cols.Nodup)
    (hmem : ∀ c, c ∈ t.cols ↔ c ∈ "audio_segments" :: Migrations.RETAINED) :
    Migrations.drop_audio_segments true false t = Migrations.rebuildAyats t ∧
      (∀ c ∈ Migrations.RETAINED,
        Migrations.colValues (Migrations.alterDropColumn t "audio_segments") c =
          Migrations.colValues t c) ∧
      (∀ c ∈ Migrations.RETAINED,
        Migrations.colValues (Migrations.rebuildAyats t) c = Migrations.colValues t c) ∧
      (∀ c, c ∈ (Migrations.alterDropColumn t "audio_segments").cols ↔
        c ∈ Migrations.RETAINED) ∧
      (∀ c, c ∈ (Migrations.rebuildAyats t).cols ↔ c ∈ Migrations.RETAINED) ∧
      (Migrations.rebuildAyats t).rows.length = t.rows.length ∧
      (Migrations.alterDropColumn t "audio_segments").rows.length = t.rows.length ∧
      (∀ (b : Bool) (t' : Migrations.Table), "audio_segments" ∉ t'.cols →
        Migrations.drop_audio_segments true b t' = t') := by
  have haud : "audio_segments" ∈ t.cols := (hmem _).mpr (List.mem_cons_self _ _)
  have hsub : ∀ c ∈ Migrations.RETAINED, c ∈ t.cols := by
    intro c hc
    exact (hmem c).mpr (List.mem_cons_of_mem _ hc)
  have hnotret : "audio_segments" ∉ Migrations.RETAINED := by decide
  refine ⟨?_, ?_, ?_, ?_, ?_, ?_, ?_, ?_⟩
  · simp [Migrations.drop_audio_segments, Migrations.column_exists, haud]
  · intro c hc
    have hne : c ≠ "audio_segments" := fun h => hnotret (h ▸ hc)
    have hcin : c ∈ t.cols := hsub c hc
    have hcer : c ∈ t.cols.erase "audio_segments" :=
      (hnd.mem_erase_iff).mpr ⟨hne, hcin⟩
    simp [Migrations.colValues, Migrations.alterDropColumn, hcer, hcin]
  · intro c hc
    have hcin : c ∈ t.cols := hsub c hc
    have hcont : Migrations.RETAINED.contains c = true := by
      simp [hc]
    have hcont2 : t.cols.contains c = true := by
      simp [hcin]
    simp only [Migrations.colValues, Migrations.rebuildAyats, hcont, hcont2, if_pos,
      List.map_map]
    refine congrArg some (List.map_congr_left ?_)
    intro r _
    simp [Function.comp_def, hc]
  · intro c
    rw [Migrations.alterDropColumn, hnd.mem_erase_iff]
    constructor
    · rintro ⟨hne, hin⟩
      rcases List.mem_cons.mp ((hmem c).mp hin) with h | h
      · exact absurd h hne
      · exact h
    · intro hc
      exact ⟨fun h => hnotret (h ▸ hc), hsub c hc⟩
  · intro c
    exact Iff.rfl
  · simp [Migrations.rebuildAyats]
  · rfl
  · intro b t' habs
    have : Migrations.column_exists t' "audio_segments" = false := by
      simp [Migrations.column_exists, habs]
    simp [Migrations.drop_audio_segments, this]

/-! ## Theorems: `combine_url` (C10) -/

theorem lstripSlash_head_not_slash (p : String) (c : Char) :
    (lstripSlash p).data.head? = some c → c ≠ '/' := by
  intro h
  have := List.head?_dropWhile_not (· == '/') p.data
  rw [show (lstripSlash p).data = p.data.dropWhile (· == '/') from rfl] at h
  rw [h] at this
  simpa using this

theorem rstripSlash_getLast_not_slash (s : String) (c : Char) :
    (rstripSlash s).data.getLast? = some c → c ≠ '/' := by
  intro h
  have hdata : (rstripSlash s).data = (s.data.reverse.dropWhile (· == '/')).reverse := rfl
  rw [hdata, List.getLast?_reverse] at h
  have := List.head?_dropWhile_not (· == '/') s.data.reverse
  rw [h] at this
  simpa using this

/-- C10: `combine_url` returns `None` exactly for a `None` or empty path; for
every non-empty path it returns the base and the path joined on exactly one
slash — the result depends on the base only through `rstrip('/')` and on the
path only through `lstrip('/')` (so extra trailing slashes on the base or
leading slashes on the path do not change the join), the stripped base ends
in a non-slash character and the stripped path starts with one, so the v2
loader never writes an audio URL with a doubled slash at the join point. -/
theorem c10_combine_url :
    (∀ x, combine_url x = none ↔ x = none ∨ x = some "") ∧
      (∀ p, combine_url (some p) =
        if p = "" then none
        else some (rstripSlash BASE_AUDIO ++ "/" ++ lstripSlash p)) ∧
      (∀ s, rstripSlash (s ++ "/") = rstripSlash s) ∧
      (∀ p, lstripSlash ("/" ++ p) = lstripSlash p) ∧
      rstripSlash BASE_AUDIO = "https://verses.quran.foundation" ∧
      (∀ p c, (lstripSlash p).data.head? = some c → c ≠ '/') ∧
      (∀ s c, (rstripSlash s).data.getLast? = some c → c ≠ '/') := by
  refine ⟨?_, fun p => rfl, ?_, ?_, by decide, lstripSlash_head_not_slash,
    rstripSlash_getLast_not_slash⟩
  · intro x
    cases x with
    | none => simp [combine_url]
    | some p =>
      by_cases hp : p = "" <;> simp [combine_url, hp]
  · intro s
    apply congrArg String.mk
    rw [show (s ++ "/").data = s.data ++ ['/'] from by simp]
    simp [List.dropWhile]
  · intro p
    apply congrArg String.mk
    rw [show ("/" ++ p).data = '/' :: p.data from by simp]
    simp [List.dropWhile]

/-! ## Witnesses and counterexample -/

theorem wResults2_echo : ∀ k p, wResults2 k = some p → p.sura_id = k.1 := by
  intro k p hkp
  simp only [wResults2] at hkp
  split at hkp
  · rename_i hk
    injection hkp with h
    subst hk
    rw [← h]
    rfl
  · exact absurd hkp (by simp)

theorem wResults_positions : ∀ k p, wResults k = some p →
    (p.words.map fun wd => wd.position) = List.range' 1 p.words.length := by
  intro k p hkp
  simp only [wResults] at hkp
  split at hkp
  · injection hkp with h
    rw [← h]
    decide
  · exact absurd hkp (by simp)

theorem wResults2_positions : ∀ k p, wResults2 k = some p →
    (p.words.map fun wd => wd.position) = List.range' 1 p.words.length := by
  intro k p hkp
  simp only [wResults2] at hkp
  split at hkp
  · injection hkp with h
    rw [← h]
    decide
  · exact absurd hkp (by simp)

/-- Witness for C2: one chapter with 2 declared verses, verse `(1, 2)`
permanently missing, yields exactly `2 - 1 = 1` row for that chapter. -/
theorem c2_per_chapter_counts_witness :
    ((loadAyats (all_ayah wSuras) wResults).1.countP fun r => r.sura_id == 1) = 1 := by
  have h := c2_per_chapter_counts wSuras wResults wResults2
    { id := 1, name_arabic := "alfatiha", revelation_order := 5, verses_count := 2 }
    (by decide) (by decide) wResults2_echo
  exact h.1.trans (by decide)

/-- C3 counterexample: on an already-initialized store whose `Ayats` table
holds one row, re-running the v2 Schema Initializer does not leave that data
unchanged — `recreate_ayats_words` empties the table. -/
theorem c3_counterexample :
    cStore.ayats = some [cAyatRow] ∧ (initV2 [] cStore).ayats ≠ cStore.ayats := by
  refine ⟨rfl, ?_⟩
  simp [initV2, cStore, cAyatRow]

/-- Witness for C3 (amended): idempotence and `Ayats` preservation of the v1
initializer, applied to the concrete store holding one verse row. -/
theorem c3_schema_init_amended_witness :
    initV1 [] (initV1 [] cStore) = initV1 [] cStore ∧
      (initV1 [] cStore).ayats = some [cAyatRow] := by
  have h := c3_schema_init_amended
  exact ⟨h.1 [] cStore, h.2.2.2.2.2.2.1 [] cStore [cAyatRow] rfl⟩

/-- Witness for C4: a concrete two-chapter list with ascending ids. -/
theorem c4_key_enumerator_witness :
    (all_ayah wSuras2).Nodup ∧ (all_ayah wSuras2).Pairwise keyLt := by
  have h := c4_key_enumerator wSuras2 (by decide)
  exact ⟨h.2.1, h.2.2.1⟩

/-- Witness for C5: the verse loaded for key `(1, 1)` (with two words at
positions 1, 2) gets word numbers forming `1..2`, while key `(1, 2)` is
missing. -/
theorem c5_word_positions_witness :
    (((loadAyats [(1, 1), (1, 2)] wResults).2.filter
        fun x => x.ayat_id == 1).map fun x => x.word_number) =
      List.range' 1
        ((loadAyats [(1, 1), (1, 2)] wResults).2.filter
          fun x => x.ayat_id == 1).length := by
  have h := c5_word_positions [(1, 1), (1, 2)] wResults wResults2
    wResults_positions wResults2_positions
  exact (h.1 ⟨1, 1, 1, "b", 1, 1, 1⟩ (by decide)).1

/-- Witness for C6: first pass fails on `(1, 2)` and `(1, 3)`; the retry is
called exactly for those two keys in order, and only `(1, 3)` (whose retry
also fails) is reported. -/
theorem c6_recovery_pass_witness :
    (recoveryPass wFetch2 (aggregate wFetch1 wOrder).2 (aggregate wFetch1 wOrder).1).2.1 =
        (aggregate wFetch1 wOrder).2 ∧
      (recoveryPass wFetch2 (aggregate wFetch1 wOrder).2
          (aggregate wFetch1 wOrder).1).2.2 = [(1, 3)] := by
  have h := c6_recovery_pass wFetch1 wFetch2 wOrder wOrder (by decide)
  exact ⟨h.1, h.2.1.trans (by decide)⟩

/-- Witness for C7: a request that keeps answering 503 is retried the full
budget of 5 times and the sixth outcome (attempt index 5) is surfaced. -/
theorem c7_retry_policy_witness :
    retryRun sessionRetry "GET" wResponses 0 sessionRetry.total = (5, .status 503) := by
  have h := c7_retry_policy
  have hall := h.2.2.2.2.2.2.2.2.2.1 wResponses
    (by
      intro j
      exact (by decide : isRetryable sessionRetry "GET" (.status 503) = true))
  exact hall.trans (by decide)

/-- Witness for C8: with the source file missing, `import_juzs` and
`import_lines` leave the concrete target database untouched. -/
theorem c8_missing_input_no_mutation_witness :
    ImportJuzs.import_juzs false true [] wDbJ = wDbJ ∧
      ImportLines.import_lines false true [] wDbL = wDbL := by
  have h := c8_missing_input_no_mutation false true [] wDbJ [] wDbL (Or.inl rfl)
  exact h

/-- Witness for C9: on a concrete table with the ten columns, the failing
`ALTER` path falls back to the rebuild. -/
theorem c9_drop_audio_segments_equiv_witness :
    Migrations.drop_audio_segments true false wTable = Migrations.rebuildAyats wTable := by
  have h := c9_drop_audio_segments_equiv wTable (by decide) (fun c => Iff.rfl)
  exact h.1

/-- Witness for C10: a path with a leading slash is joined on a single slash. -/
theorem c10_combine_url_witness :
    combine_url (some "/abc") = some "https://verses.quran.foundation/abc" := by
  have h := c10_combine_url
  exact (h.2.1 "/abc").trans (by decide)

end QuranDb
